import Mathlib

/-!
# redis_keystore: the `redis-keystore_keyset` resource

A shallow embedding of `src/redis_keystore/resource_keyset.go`.

* A Go `map[string]interface{}` whose values are strings is an association
  list `Keyset`; a `range` loop over the map visits the list front to back, so
  the list order stands for whatever iteration order the Go runtime picks, and
  a statement proved for every list holds for every iteration order. Keys are
  unique in a Go map; theorems that depend on it assume `keys.Nodup`.
* The remote store, the connection pool and the process environment are the
  `World`: store content, the transactional block pending on the connection,
  the log of every command sent, and two failure oracles (one for dialing, one
  for commands) that may depend on everything sent so far.
* The lifecycle callbacks take a `World` and a `ResourceData` and return the
  new `World`, the new `ResourceData` and the diagnostics.
-/

namespace RedisKeystore

/-! ## Data model -/

/-- A keyset: string keys mapped to string values, in iteration order. -/
abbrev Keyset := List (String × String)

/-- Map lookup `m[k]`: the value stored under `k`, if any. -/
def Keyset.lookup (k : String) : Keyset → Option String
  | [] => none
  | (k', v) :: rest => if k' = k then some v else Keyset.lookup k rest

/-- Map store `m[k] = v`: overwrite the entry of `k` or add a new one. -/
def Keyset.insert (k v : String) : Keyset → Keyset
  | [] => [(k, v)]
  | (k', v') :: rest => if k' = k then (k, v) :: rest else (k', v') :: Keyset.insert k v rest

/-- The keys of a keyset, in iteration order. -/
def Keyset.keys (m : Keyset) : List String := m.map Prod.fst

/-- A store command of the wire protocol used by the resource. -/
inductive Cmd where
  | set (key value : String)
  | get (key : String)
  | del (key : String)
  | multi
  | exec
  | discard
  deriving DecidableEq, Repr

/-- The key a command names (`SET`, `GET` and `DEL` name one; the block
commands name none). -/
def Cmd.key : Cmd → Option String
  | .set k _ => some k
  | .get k => some k
  | .del k => some k
  | _ => none

/-- The SSH tunnel requested by `NewSSHTunnel(server, auth, remote)`. -/
structure SSHTunnel where
  server : String
  privateKey : String
  remote : String
  deriving DecidableEq, Repr

/-- What `getRedisConnection` asks for: the tunnel it starts (if any) and the
arguments of `cfg.New(ctx, network, address)` with the `SelectDB` of the dialer. -/
structure Dial where
  tunnel : Option SSHTunnel
  network : String
  address : String
  selectDB : String
  deriving DecidableEq, Repr

/-- The environment of the provider process: the remote store and its
connection, the process environment variables and the local port of the tunnel.

* `data` is the content of the store;
* `queue` is the transactional block pending on the current connection
  (`none` outside `MULTI`);
* `log` is every command sent so far, oldest first;
* `fails log c` tells whether command `c`, sent after `log`, returns an error;
* `dialFails log dial` tells whether `cfg.New` returns an error;
* `env` is `os.Getenv`;
* `tunnelPort` is `tunnel.Local.Port` at the time it is read. -/
structure World where
  data : String → Option String
  queue : Option (List Cmd)
  log : List Cmd
  fails : List Cmd → Cmd → Bool
  dialFails : List Cmd → Dial → Bool
  env : String → String
  tunnelPort : Nat

/-- The resource data handed to a lifecycle callback: the resource id, the
`keyset` attribute (`d.Get("keyset")`), its prior value (the first component of
`d.GetChange("keyset")`) and the explicitly configured string attributes. -/
structure ResourceData where
  id : String
  keyset : Keyset
  oldKeyset : Keyset
  attrs : String → Option String

/-- Diagnostics returned by a callback: one entry per error (`diag.FromErr`),
empty on success. -/
abbrev Diagnostics := List String

/-- Outcome of a lifecycle callback. -/
structure Result where
  world : World
  d : ResourceData
  diags : Diagnostics

/-! ## Schema (`resourceKeyset`) -/

/-- The function built by `schema.EnvDefaultFunc(k, dv)`: the value of the
environment variable `k` when it is non-empty, `dv` otherwise. -/
def EnvDefaultFunc (env : String → String) (k dv : String) : String :=
  if env k ≠ "" then env k else dv

/-- The `DefaultFunc` entries of the schema in `resourceKeyset`: attribute name,
environment variable, fallback. -/
def resourceKeyset : List (String × String × String) :=
  [ ("hostname", "REDISDB_HOSTNAME", "127.0.0.1"),
    ("port", "REDISDB_PORT", "6379"),
    ("database", "REDISDB_DATABASE", "0"),
    ("bastion_host", "BASTION_HOST", "nil"),
    ("bastion_user", "BASTION_USER", ""),
    ("bastion_private_key", "BASTION_PRIVATE_KEY", "") ]

/-- The schema default of an attribute. -/
def schemaDefault (env : String → String) (field : String) :
    List (String × String × String) → String
  | [] => ""
  | (f, k, dv) :: rest => if f = field then EnvDefaultFunc env k dv else schemaDefault env field rest

/-- The value `d.Get(field).(string)` of a string attribute: the configured
value, or the schema default when the attribute is not configured. -/
def ResourceData.Get (w : World) (d : ResourceData) (field : String) : String :=
  match d.attrs field with
  | some v => v
  | none => schemaDefault w.env field resourceKeyset

/-! ## Connection provider (`getRedisConnection`) -/

/-- The dial `getRedisConnection` performs (source lines 74-107). -/
def getRedisConnection (w : World) (d : ResourceData) : Dial :=
  let hostname := d.Get w "hostname"
  let port := d.Get w "port"
  let database := d.Get w "database"
  let bastion_host := d.Get w "bastion_host"
  let bastion_user := d.Get w "bastion_user"
  let bastion_private_key := d.Get w "bastion_private_key"
  if bastion_host ≠ "" ∧ bastion_user ≠ "" ∧ bastion_private_key ≠ "" then
    { tunnel := some ⟨bastion_user ++ "@" ++ bastion_host, bastion_private_key,
                      hostname ++ ":" ++ port⟩,
      network := "tcp",
      address := "127.0.0.1" ++ ":" ++ toString w.tunnelPort,
      selectDB := database }
  else
    { tunnel := none,
      network := "tcp",
      address := hostname ++ ":" ++ port,
      selectDB := database }

/-- The outcome of `cfg.New`: an error, or a fresh connection (which has no
transactional block open). -/
def World.New (w : World) (dial : Dial) : Except String World :=
  if w.dialFails w.log dial then .error "dial failed"
  else .ok { w with queue := none }

/-! ## The store connection (`Do`) -/

/-- Effect of a queued command when the transactional block is committed. -/
def applyCmd (data : String → Option String) : Cmd → String → Option String
  | .set k v => fun x => if x = k then some v else data x
  | .del k => fun x => if x = k then none else data x
  | _ => data

/-- Effect of `EXEC`: the queued commands are applied in the order queued. -/
def applyQueue (data : String → Option String) (q : List Cmd) : String → Option String :=
  q.foldl applyCmd data

/-- One command sent over the connection (`client.Do` / `c.Do`): the command is
logged; when the oracle makes it fail it returns an error and has no effect;
otherwise the store answers as the wire protocol prescribes. The reply is the
error, or the value returned (`none` for a null reply or no value).

* outside a transactional block `SET`, `DEL` take effect at once and `GET`
  returns the stored value (null when the key is missing);
* `MULTI` opens a block, inside which `SET`, `GET`, `DEL` are only queued;
* `EXEC` applies the queued commands and closes the block, `DISCARD` drops
  them; both are errors when no block is open, as is a nested `MULTI`. -/
def World.Do (w : World) (c : Cmd) : World × Except String (Option String) :=
  let w1 : World := { w with log := w.log ++ [c] }
  if w.fails w.log c then (w1, .error "command failed")
  else
    match w.queue, c with
    | none, .set k v => ({ w1 with data := applyCmd w.data (.set k v) }, .ok none)
    | none, .get k => (w1, .ok (w.data k))
    | none, .del k => ({ w1 with data := applyCmd w.data (.del k) }, .ok none)
    | none, .multi => ({ w1 with queue := some [] }, .ok none)
    | none, .exec => (w1, .error "ERR EXEC without MULTI")
    | none, .discard => (w1, .error "ERR DISCARD without MULTI")
    | some _, .multi => (w1, .error "ERR MULTI calls can not be nested")
    | some q, .exec => ({ w1 with data := applyQueue w.data q, queue := none }, .ok none)
    | some _, .discard => ({ w1 with queue := none }, .ok none)
    | some q, c => ({ w1 with queue := some (q ++ [c]) }, .ok none)

/-- The `err` of a `Do` whose reply value is not used. -/
def errOf : Except String (Option String) → Option String
  | .error e => some e
  | .ok _ => none

/-! ## Identity deriver (`hashstructure.Hash`) -/

/-- FNV-1a, 64 bit, over a byte sequence, continuing from state `h`. -/
def fnv64a (h : Nat) : List Nat → Nat
  | [] => h
  | b :: bs => fnv64a (((h ^^^ b) * 1099511628211) % 2 ^ 64) bs

/-- The FNV-1a 64-bit offset basis (state after `Reset`). -/
def fnvOffset : Nat := 14695981039346656037

/-- The eight little-endian bytes of a 64-bit word (`binary.Write`). -/
def le64 (n : Nat) : List Nat :=
  (List.range 8).map fun i => (n / 2 ^ (8 * i)) % 256

/-- Hash of a string: its bytes fed to a fresh hasher. -/
def hashString (s : String) : Nat :=
  fnv64a fnvOffset (s.toUTF8.toList.map UInt8.toNat)

/-- Hash of one map entry, `hashUpdateOrdered(kh, vh)`. -/
def hashEntry (p : String × String) : Nat :=
  fnv64a fnvOffset (le64 (hashString p.1) ++ le64 (hashString p.2))

/-- Modelled from the spec: `hashstructure.Hash(keyset, FormatV2, nil)`, the
Identity Deriver of section 4.2, is a library function that is not under src/.
It is "a deterministic fingerprint of a keyset's content", "stable across
differing map/iteration orders"; it is rendered here the way the library
documents its map case: every entry is hashed on its own, the entry hashes are
combined with XOR over the iteration order, and the combination is hashed once
more. -/
def Hash (keyset : Keyset) : Nat :=
  fnv64a fnvOffset (le64 (keyset.foldl (fun h p => h ^^^ hashEntry p) 0))

/-! ## State differ (`diff.Diff`) -/

/-- A change record of the changelog: `key` is `change.Path[0]`, `newValue` is
`change.To` and `oldValue` is `change.From`. -/
inductive Change where
  | create (key newValue : String)
  | update (key oldValue newValue : String)
  | delete (key oldValue : String)
  deriving DecidableEq, Repr

/-- Modelled from the spec: `diff.Diff(old, new)`, the State Differ of section
4.3, is a library function that is not under src/. Following section 3, "every
key present only in the new keyset yields exactly one Create; every key present
only in the old keyset yields exactly one Delete; every key present in both with
differing values yields exactly one Update; unchanged keys yield no record".
The records come in a deterministic order: the keys of the old keyset in its
order, then the keys only the new keyset has, in its order (section 8:
A={a:1,b:2}, B={b:3,c:4} gives Delete(a), Update(b,3), Create(c,4)). -/
def Diff (old new : Keyset) : List Change :=
  old.filterMap (fun p =>
    match Keyset.lookup p.1 new with
    | none => some (Change.delete p.1 p.2)
    | some v => if p.2 = v then none else some (Change.update p.1 p.2 v))
  ++ new.filterMap (fun p =>
    match Keyset.lookup p.1 old with
    | none => some (Change.create p.1 p.2)
    | some _ => none)

/-- The test `d.HasChanges("keyset")`: the old and the new value of the
attribute are not the same map. -/
def ResourceData.HasChanges (d : ResourceData) : Bool :=
  !(d.oldKeyset.all (fun p => Keyset.lookup p.1 d.keyset == some p.2)
    && d.keyset.all (fun p => Keyset.lookup p.1 d.oldKeyset == some p.2))

/-! ## Reconciler -/

/-- The loop of `resourceKeysetRead` (source lines 145-154): one `GET` per key
of the keyset, collected into `returnValues`; the first error ends the loop. A
null reply leaves `value` at its zero value, the empty string. -/
def readLoop (w : World) (returnValues : Keyset) : Keyset → World × Except String Keyset
  | [] => (w, .ok returnValues)
  | (key, _) :: rest =>
    match w.Do (.get key) with
    | (w1, .error e) => (w1, .error e)
    | (w1, .ok value) => readLoop w1 (Keyset.insert key (value.getD "") returnValues) rest

/-- The callback `resourceKeysetRead` (source lines 134-159). -/
def resourceKeysetRead (w : World) (d : ResourceData) : Result :=
  match w.New (getRedisConnection w d) with
  | .error e => ⟨w, d, [e]⟩
  | .ok w1 =>
    match readLoop w1 [] d.keyset with
    | (w2, .error e) => ⟨w2, d, [e]⟩
    | (w2, .ok returnValues) => ⟨w2, { d with keyset := returnValues }, []⟩

/-- The loop of `resourceKeysetCreate` (source lines 117-122): one `SET` per
entry of the keyset; the first error ends the loop. -/
def createLoop (w : World) : Keyset → World × Option String
  | [] => (w, none)
  | (key, value) :: rest =>
    match w.Do (.set key value) with
    | (w1, .error e) => (w1, some e)
    | (w1, .ok _) => createLoop w1 rest

/-- The callback `resourceKeysetCreate` (source lines 109-132). -/
def resourceKeysetCreate (w : World) (d : ResourceData) : Result :=
  match w.New (getRedisConnection w d) with
  | .error e => ⟨w, d, [e]⟩
  | .ok w1 =>
    match createLoop w1 d.keyset with
    | (w2, some e) => ⟨w2, d, [e]⟩
    | (w2, none) =>
      let hash := Hash d.keyset
      resourceKeysetRead w2 { d with id := toString hash }

/-- The command a change record is turned into (the `switch` of source lines
186-196). -/
def changeCmd : Change → Cmd
  | .create key newValue => .set key newValue
  | .update key _ newValue => .set key newValue
  | .delete key _ => .del key

/-- The loop over the changelog (source lines 185-197): every record sends its
command and assigns the outcome to the variable `err`; the loop goes on to the
next record whatever the outcome. Returns the final value of `err`. -/
def changesLoop (w : World) (err : Option String) : List Change → World × Option String
  | [] => (w, err)
  | change :: rest =>
    let r := w.Do (changeCmd change)
    changesLoop r.1 (errOf r.2) rest

/-- The function passed to `radix.WithConn` (source lines 169-201): `MULTI`
(its error is returned at once, before the deferred function is registered),
the loop over the changelog, then `return c.Do(EXEC)`; the deferred function
runs after the `EXEC` of the return statement has been evaluated and sends
`DISCARD` when `err` is not nil. The value returned is the outcome of `EXEC`. -/
def updateBlock (w : World) (d : ResourceData) : World × Option String :=
  match w.Do .multi with
  | (w1, .error e) => (w1, some e)
  | (w1, .ok _) =>
    let changes := Diff d.oldKeyset d.keyset
    let (w2, err) := changesLoop w1 none changes
    let (w3, ret) := w2.Do .exec
    let w4 := if err.isSome then (w3.Do .discard).1 else w3
    (w4, errOf ret)

/-- The callback `resourceKeysetUpdate` (source lines 161-210). -/
def resourceKeysetUpdate (w : World) (d : ResourceData) : Result :=
  match w.New (getRedisConnection w d) with
  | .error e => ⟨w, d, [e]⟩
  | .ok w1 =>
    if d.HasChanges then
      match updateBlock w1 d with
      | (w2, some e) => ⟨w2, d, [e]⟩
      | (w2, none) => resourceKeysetRead w2 d
    else
      resourceKeysetRead w1 d

/-- The loop of `resourceKeysetDelete` (source lines 223-228): one `DEL` per key
of the keyset; the first error ends the loop. -/
def deleteLoop (w : World) : Keyset → World × Option String
  | [] => (w, none)
  | (key, _) :: rest =>
    match w.Do (.del key) with
    | (w1, .error e) => (w1, some e)
    | (w1, .ok _) => deleteLoop w1 rest

/-- The callback `resourceKeysetDelete` (source lines 212-233); the keyset it
walks is the old value of the attribute. -/
def resourceKeysetDelete (w : World) (d : ResourceData) : Result :=
  match w.New (getRedisConnection w d) with
  | .error e => ⟨w, d, [e]⟩
  | .ok w1 =>
    match deleteLoop w1 d.oldKeyset with
    | (w2, some e) => ⟨w2, d, [e]⟩
    | (w2, none) => ⟨w2, { d with id := "" }, []⟩

/-! ## Concrete inputs -/

/-- The resource data of a configuration that sets `bastion_user` to `u` and
`bastion_private_key` to `k` and leaves every other attribute unconfigured. -/
def userAndKeyOnly : ResourceData :=
  { id := "", keyset := [], oldKeyset := [],
    attrs := fun f =>
      if f = "bastion_user" then some "u"
      else if f = "bastion_private_key" then some "k" else none }

/-- A store that is empty, never fails, with no environment variable set. -/
def quietWorld : World :=
  { data := fun _ => none, queue := none, log := [],
    fails := fun _ _ => false, dialFails := fun _ _ => false,
    env := fun _ => "", tunnelPort := 40001 }

/-- An empty store in which the command `SET a 1` fails whenever it is sent and
every other command succeeds. -/
def setAFails : World :=
  { quietWorld with fails := fun _ c => c == .set "a" "1" }

/-- An update of resource `7` from the empty keyset to `{a:1, b:2}`. -/
def addAB : ResourceData :=
  { id := "7", keyset := [("a", "1"), ("b", "2")], oldKeyset := [], attrs := fun _ => none }

/-- An update of resource `7` from the empty keyset to `{a:1}`. -/
def addA : ResourceData :=
  { id := "7", keyset := [("a", "1")], oldKeyset := [], attrs := fun _ => none }

/-- An update of resource `7` from `{x:1, y:2}` to `{x:1, y:3, z:4}`. -/
def changeXYZ : ResourceData :=
  { id := "7", keyset := [("x", "1"), ("y", "3"), ("z", "4")],
    oldKeyset := [("x", "1"), ("y", "2")], attrs := fun _ => none }

/-- A new resource with desired keyset `{x:1}`. -/
def newX : ResourceData :=
  { id := "", keyset := [("x", "1")], oldKeyset := [], attrs := fun _ => none }

/-- A new resource with desired keyset `{a:1, b:2}`. -/
def newAB : ResourceData :=
  { id := "", keyset := [("a", "1"), ("b", "2")], oldKeyset := [], attrs := fun _ => none }

/-- A new resource with desired keyset `{b:2, a:1}`. -/
def newBA : ResourceData :=
  { id := "", keyset := [("b", "2"), ("a", "1")], oldKeyset := [], attrs := fun _ => none }

/-- An empty store in which the command `SET b 2` fails whenever it is sent and
every other command succeeds. -/
def setBFails : World :=
  { quietWorld with fails := fun _ c => c == .set "b" "2" }

/-- A new resource with desired keyset `{a:1, b:2, c:3}`. -/
def newABC : ResourceData :=
  { id := "", keyset := [("a", "1"), ("b", "2"), ("c", "3")], oldKeyset := [],
    attrs := fun _ => none }

/-- A store that never fails and holds `x = 1`, `y = 2` and `other = 9`. -/
def holdsXY : World :=
  { quietWorld with
    data := fun k =>
      if k = "x" then some "1" else if k = "y" then some "2"
      else if k = "other" then some "9" else none }

/-- The resource `7` whose last known keyset is `{x:1, y:2}`, about to be
deleted. -/
def dropXY : ResourceData :=
  { id := "7", keyset := [], oldKeyset := [("x", "1"), ("y", "2")], attrs := fun _ => none }

/-! ## Facts about one command -/

theorem Do_log (w : World) (c : Cmd) : (w.Do c).1.log = w.log ++ [c] := by
  unfold World.Do
  cases hq : w.queue <;> cases c <;> simp <;> split <;> rfl

theorem Do_fails (w : World) (c : Cmd) : (w.Do c).1.fails = w.fails := by
  unfold World.Do
  cases hq : w.queue <;> cases c <;> simp <;> split <;> rfl

theorem Do_error_of_fails (w : World) (c : Cmd) (h : w.fails w.log c = true) :
    (w.Do c).2 = .error "command failed" := by
  simp [World.Do, h]

theorem Do_set (w : World) (k v : String) (hq : w.queue = none)
    (h : w.fails w.log (.set k v) = false) :
    w.Do (.set k v) =
      ({ w with log := w.log ++ [.set k v], data := applyCmd w.data (.set k v) }, .ok none) := by
  simp [World.Do, h, hq]

theorem Do_get (w : World) (k : String) (hq : w.queue = none)
    (h : w.fails w.log (.get k) = false) :
    w.Do (.get k) = ({ w with log := w.log ++ [.get k] }, .ok (w.data k)) := by
  simp [World.Do, h, hq]

theorem Do_del (w : World) (k : String) (hq : w.queue = none)
    (h : w.fails w.log (.del k) = false) :
    w.Do (.del k) =
      ({ w with log := w.log ++ [.del k], data := applyCmd w.data (.del k) }, .ok none) := by
  simp [World.Do, h, hq]

/-! ## Connection provider -/

/-- C6, evaluated on the code: with `bastion_host` left unconfigured and no
`BASTION_HOST` variable, the value read is the schema fallback `"nil"`, which is
not empty; when `bastion_user` and `bastion_private_key` are set, a tunnel to
`u@nil` is started and the store is dialed at the local tunnel endpoint instead
of `hostname:port`. -/
theorem unconfigured_bastion_host_starts_tunnel :
    userAndKeyOnly.attrs "bastion_host" = none ∧
    quietWorld.env "BASTION_HOST" = "" ∧
    userAndKeyOnly.Get quietWorld "bastion_host" = "nil" ∧
    (getRedisConnection quietWorld userAndKeyOnly).tunnel =
      some ⟨"u@nil", "k", "127.0.0.1:6379"⟩ ∧
    (getRedisConnection quietWorld userAndKeyOnly).address = "127.0.0.1:40001" ∧
    (getRedisConnection quietWorld userAndKeyOnly).address ≠
      userAndKeyOnly.Get quietWorld "hostname" ++ ":" ++ userAndKeyOnly.Get quietWorld "port" := by
  decide

/-- C7: the store is dialed through the local tunnel endpoint exactly when the
three bastion values read by `getRedisConnection` are all non-empty; then the
tunnel goes to `bastion_user@bastion_host` with target `hostname:port` and the
address dialed is `127.0.0.1:<tunnel local port>`; when one of the three is
empty no tunnel is created and the address dialed is `hostname:port`. -/
theorem getRedisConnection_tunnel_iff_all_bastion_values (w : World) (d : ResourceData) :
    ((getRedisConnection w d).tunnel ≠ none ↔
      (d.Get w "bastion_host" ≠ "" ∧ d.Get w "bastion_user" ≠ "" ∧
        d.Get w "bastion_private_key" ≠ "")) ∧
    (getRedisConnection w d) =
      (if d.Get w "bastion_host" ≠ "" ∧ d.Get w "bastion_user" ≠ "" ∧
          d.Get w "bastion_private_key" ≠ "" then
        { tunnel := some ⟨d.Get w "bastion_user" ++ "@" ++ d.Get w "bastion_host",
                          d.Get w "bastion_private_key",
                          d.Get w "hostname" ++ ":" ++ d.Get w "port"⟩,
          network := "tcp",
          address := "127.0.0.1:" ++ toString w.tunnelPort,
          selectDB := d.Get w "database" }
      else
        { tunnel := none,
          network := "tcp",
          address := d.Get w "hostname" ++ ":" ++ d.Get w "port",
          selectDB := d.Get w "database" }) := by
  have happ : "127.0.0.1" ++ ":" ++ toString w.tunnelPort = "127.0.0.1:" ++ toString w.tunnelPort := by
    rw [show ("127.0.0.1" : String) ++ ":" = "127.0.0.1:" from by decide]
  unfold getRedisConnection
  by_cases h : d.Get w "bastion_host" ≠ "" ∧ d.Get w "bastion_user" ≠ "" ∧
      d.Get w "bastion_private_key" ≠ ""
  · simp only [if_pos h, happ]
    simp [h]
  · simp only [if_neg h]
    simp [h]

/-! ## Identity is fixed after creation -/

theorem resourceKeysetRead_id (w : World) (d : ResourceData) :
    (resourceKeysetRead w d).d.id = d.id := by
  unfold resourceKeysetRead
  split
  · rfl
  · split <;> rfl

/-- C9: `resourceKeysetUpdate` (with the read it ends with) and
`resourceKeysetRead` return with the resource id they were entered with,
whatever the keysets and whatever the store does. -/
theorem update_and_read_keep_id (w : World) (d : ResourceData) :
    (resourceKeysetUpdate w d).d.id = d.id ∧ (resourceKeysetRead w d).d.id = d.id := by
  refine ⟨?_, resourceKeysetRead_id w d⟩
  unfold resourceKeysetUpdate
  split
  · rfl
  · split
    · split
      · rfl
      · exact resourceKeysetRead_id _ d
    · exact resourceKeysetRead_id _ d

/-! ## The transactional block of Update, evaluated -/

/-- C2, evaluated on the code. In an update from `{}` to `{a:1, b:2}` where
`MULTI` succeeds and `SET a 1` fails, the commands sent are `MULTI`, `SET a 1`,
`SET b 2`, `EXEC` and the two `GET` of the final read: `EXEC` is issued,
`DISCARD` is not, and key `b`, absent before, holds `2` afterwards. In an update
from `{}` to `{a:1}` where the only mutation fails, `EXEC` is issued all the
same and `DISCARD` is sent after it. -/
theorem update_commits_block_after_failed_mutation :
    addAB.HasChanges = true ∧
    setAFails.fails [] .multi = false ∧
    setAFails.fails [.multi] (.set "a" "1") = true ∧
    (resourceKeysetUpdate setAFails addAB).world.log =
      [.multi, .set "a" "1", .set "b" "2", .exec, .get "a", .get "b"] ∧
    setAFails.data "b" = none ∧
    (resourceKeysetUpdate setAFails addAB).world.data "b" = some "2" ∧
    (resourceKeysetUpdate setAFails addA).world.log =
      [.multi, .set "a" "1", .exec, .discard, .get "a"] := by
  decide

/-- C3, evaluated on the code. In an update from `{}` to `{a:1}` where
`SET a 1`, the only mutation of the block, fails and `EXEC` succeeds,
`resourceKeysetUpdate` returns no diagnostic; the same happens in the update
from `{}` to `{a:1, b:2}` where the failing `SET a 1` is followed by a
successful `SET b 2`. -/
theorem update_swallows_failed_mutation :
    addA.HasChanges = true ∧
    setAFails.fails [.multi] (.set "a" "1") = true ∧
    errOf (World.Do { setAFails with log := [.multi], queue := some [] } (.set "a" "1")).2
      = some "command failed" ∧
    (resourceKeysetUpdate setAFails addA).diags = [] ∧
    (resourceKeysetUpdate setAFails addAB).diags = [] := by
  decide

/-! ## Identity deriver -/

theorem xorFold_perm {l₁ l₂ : Keyset} (h : l₁.Perm l₂) (init : Nat) :
    l₁.foldl (fun h p => h ^^^ hashEntry p) init
      = l₂.foldl (fun h p => h ^^^ hashEntry p) init := by
  apply List.Perm.foldl_eq' h
  intro x _ y _ z
  show (z ^^^ hashEntry x) ^^^ hashEntry y = (z ^^^ hashEntry y) ^^^ hashEntry x
  rw [Nat.xor_assoc, Nat.xor_comm (hashEntry x), ← Nat.xor_assoc]

theorem Hash_perm {l₁ l₂ : Keyset} (h : l₁.Perm l₂) : Hash l₁ = Hash l₂ := by
  unfold Hash
  rw [xorFold_perm h]

theorem resourceKeysetCreate_id_of_ok (w : World) (d : ResourceData)
    (h : (resourceKeysetCreate w d).diags = []) :
    (resourceKeysetCreate w d).d.id = toString (Hash d.keyset) := by
  unfold resourceKeysetCreate at h ⊢
  split at h
  · simp at h
  · split at h
    · simp at h
    · rename_i w1 _ w2 hloop
      simp only [hloop]
      exact resourceKeysetRead_id _ _

/-- C10: the identity `resourceKeysetCreate` assigns on success is the decimal
rendering of the hash of the desired keyset, and two keysets holding the same
entries in different orders get the same identity, whatever the two stores
are. -/
theorem create_identity_independent_of_order (w₁ w₂ : World) (d₁ d₂ : ResourceData)
    (hperm : d₁.keyset.Perm d₂.keyset)
    (h₁ : (resourceKeysetCreate w₁ d₁).diags = [])
    (h₂ : (resourceKeysetCreate w₂ d₂).diags = []) :
    (resourceKeysetCreate w₁ d₁).d.id = toString (Hash d₁.keyset) ∧
    (resourceKeysetCreate w₁ d₁).d.id = (resourceKeysetCreate w₂ d₂).d.id := by
  rw [resourceKeysetCreate_id_of_ok w₁ d₁ h₁, resourceKeysetCreate_id_of_ok w₂ d₂ h₂,
    Hash_perm hperm]
  exact ⟨rfl, rfl⟩

/-- Witness of C10 at the keysets `{a:1, b:2}` and `{b:2, a:1}`. -/
theorem create_identity_independent_of_order_witness :
    newAB.keyset.Perm newBA.keyset ∧
    (resourceKeysetCreate quietWorld newAB).diags = [] ∧
    (resourceKeysetCreate quietWorld newBA).diags = [] ∧
    (resourceKeysetCreate quietWorld newAB).d.id = toString (Hash newAB.keyset) ∧
    (resourceKeysetCreate quietWorld newAB).d.id = (resourceKeysetCreate quietWorld newBA).d.id :=
  ⟨List.Perm.swap _ _ _, by decide, by decide,
    create_identity_independent_of_order quietWorld quietWorld newAB newBA
      (List.Perm.swap _ _ _) (by decide) (by decide)⟩

/-! ## Create -/

theorem createLoop_stops_at_first_failure (k v : String) (post : Keyset) :
    ∀ (pre : Keyset) (w : World),
      (∀ p₁ e p₂, pre = p₁ ++ e :: p₂ →
        w.fails (w.log ++ p₁.map (fun p => Cmd.set p.1 p.2)) (.set e.1 e.2) = false) →
      w.fails (w.log ++ pre.map (fun p => Cmd.set p.1 p.2)) (.set k v) = true →
      (createLoop w (pre ++ (k, v) :: post)).2 = some "command failed" ∧
      (createLoop w (pre ++ (k, v) :: post)).1.log
        = w.log ++ pre.map (fun p => Cmd.set p.1 p.2) ++ [.set k v] := by
  intro pre
  induction pre with
  | nil =>
    intro w _ hfail
    simp only [List.map_nil, List.append_nil, List.nil_append] at hfail ⊢
    have herr := Do_error_of_fails w _ hfail
    have hlog := Do_log w (.set k v)
    unfold createLoop
    generalize w.Do (.set k v) = r at herr hlog
    obtain ⟨w1, rep⟩ := r
    simp only at herr hlog
    subst herr
    exact ⟨rfl, hlog⟩
  | cons e pre ih =>
    intro w hpre hfail
    obtain ⟨ek, ev⟩ := e
    have hok : w.fails w.log (.set ek ev) = false := by
      simpa using hpre [] (ek, ev) pre rfl
    have hlog := Do_log w (.set ek ev)
    have hfl := Do_fails w (.set ek ev)
    have hres : ∃ x, (w.Do (.set ek ev)).2 = .ok x := by
      unfold World.Do
      cases hq : w.queue <;> simp [hok]
    obtain ⟨x, hx⟩ := hres
    simp only [List.cons_append]
    unfold createLoop
    generalize w.Do (.set ek ev) = r at hx hlog hfl
    obtain ⟨w1, rep⟩ := r
    simp only at hx hlog hfl
    subst hx
    simp only
    have h1 : ∀ p₁ e p₂, pre = p₁ ++ e :: p₂ →
        w1.fails (w1.log ++ p₁.map (fun p => Cmd.set p.1 p.2)) (.set e.1 e.2) = false := by
      intro p₁ e p₂ hp
      have := hpre ((ek, ev) :: p₁) e p₂ (by simp [hp])
      simpa [hlog, hfl] using this
    have h2 : w1.fails (w1.log ++ pre.map (fun p => Cmd.set p.1 p.2)) (.set k v) = true := by
      simpa [hlog, hfl] using hfail
    obtain ⟨a, b⟩ := ih w1 h1 h2
    refine ⟨a, ?_⟩
    rw [b, hlog]
    simp

/-- C8: when the connection is acquired and, walking the desired keyset, the
`SET` of entry `(k, v)` is the first one to fail (the entries `pre` before it
are all set successfully), `resourceKeysetCreate` sends the `SET` of `pre`, then
the failing `SET k v`, and nothing after it (no `SET` of the remaining entries
`post`, no `GET`); it returns an error diagnostic and leaves the resource data,
the id in particular, as it was on entry. -/
theorem create_aborts_at_first_failing_set (w : World) (d : ResourceData)
    (pre post : Keyset) (k v : String)
    (hkeyset : d.keyset = pre ++ (k, v) :: post)
    (hdial : w.dialFails w.log (getRedisConnection w d) = false)
    (hpre : ∀ p₁ e p₂, pre = p₁ ++ e :: p₂ →
      w.fails (w.log ++ p₁.map (fun p => Cmd.set p.1 p.2)) (.set e.1 e.2) = false)
    (hfail : w.fails (w.log ++ pre.map (fun p => Cmd.set p.1 p.2)) (.set k v) = true) :
    (resourceKeysetCreate w d).world.log
      = w.log ++ pre.map (fun p => Cmd.set p.1 p.2) ++ [.set k v] ∧
    (resourceKeysetCreate w d).diags = ["command failed"] ∧
    (resourceKeysetCreate w d).d.id = d.id ∧
    (resourceKeysetCreate w d).d.keyset = d.keyset := by
  have hloop := createLoop_stops_at_first_failure k v post pre { w with queue := none } hpre hfail
  rw [← hkeyset] at hloop
  unfold resourceKeysetCreate
  simp only [World.New, hdial, Bool.false_eq_true, if_false]
  generalize createLoop { w with queue := none } d.keyset = r at hloop
  obtain ⟨w2, err⟩ := r
  obtain ⟨herr, hlog⟩ := hloop
  simp only at herr hlog
  subst herr
  exact ⟨hlog, rfl, rfl, rfl⟩

/-- Witness of C8: creating `{a:1, b:2, c:3}` on a store where `SET b 2` fails
sends `SET a 1`, `SET b 2` and nothing else. -/
theorem create_aborts_at_first_failing_set_witness :
    (resourceKeysetCreate setBFails newABC).world.log
      = [] ++ [("a", "1")].map (fun p => Cmd.set p.1 p.2) ++ [.set "b" "2"] ∧
    (resourceKeysetCreate setBFails newABC).diags = ["command failed"] ∧
    (resourceKeysetCreate setBFails newABC).d.id = "" ∧
    (resourceKeysetCreate setBFails newABC).d.keyset = [("a", "1"), ("b", "2"), ("c", "3")] :=
  create_aborts_at_first_failing_set setBFails newABC
    [("a", "1")] [("c", "3")] "b" "2" rfl (by decide)
    (by
      intro p₁ e p₂ h
      cases p₁ with
      | nil =>
        simp only [List.nil_append, List.cons.injEq] at h
        obtain ⟨rfl, _⟩ := h
        decide
      | cons x xs =>
        simp only [List.cons_append, List.cons.injEq] at h
        exact absurd h.2 (by simp))
    (by decide)

/-! ## Update: the commands of the transactional block -/

theorem lookup_eq_none_iff (k : String) (m : Keyset) :
    Keyset.lookup k m = none ↔ k ∉ m.keys := by
  induction m with
  | nil => simp [Keyset.lookup, Keyset.keys]
  | cons p rest ih =>
    obtain ⟨k', v⟩ := p
    unfold Keyset.lookup
    by_cases h : k' = k
    · simp [h, Keyset.keys]
    · have h' : ¬ k = k' := fun e => h e.symm
      simpa [h, h', Keyset.keys] using ih

theorem mem_of_lookup_eq_some (k v : String) (m : Keyset) (h : Keyset.lookup k m = some v) :
    (k, v) ∈ m := by
  induction m with
  | nil => simp [Keyset.lookup] at h
  | cons p rest ih =>
    obtain ⟨k', v'⟩ := p
    unfold Keyset.lookup at h
    by_cases hk : k' = k
    · simp [hk] at h
      simp [hk, h]
    · simp [hk] at h
      exact List.mem_cons_of_mem _ (ih h)

theorem lookup_eq_some_of_mem (k v : String) (m : Keyset) (hnd : m.keys.Nodup)
    (h : (k, v) ∈ m) : Keyset.lookup k m = some v := by
  induction m with
  | nil => simp at h
  | cons p rest ih =>
    obtain ⟨k', v'⟩ := p
    simp only [Keyset.keys, List.map_cons, List.nodup_cons] at hnd
    unfold Keyset.lookup
    rcases List.mem_cons.mp h with heq | hmem
    · simp only [Prod.mk.injEq] at heq
      simp [heq.1, heq.2]
    · have hne : k' ≠ k := by
        intro e
        apply hnd.1
        rw [e]
        exact List.mem_map.mpr ⟨(k, v), hmem, rfl⟩
      simp only [hne, if_false]
      exact ih hnd.2 hmem

theorem changesLoop_log (cs : List Change) :
    ∀ (w : World) (err : Option String),
      (changesLoop w err cs).1.log = w.log ++ cs.map changeCmd := by
  induction cs with
  | nil => intro w err; simp [changesLoop]
  | cons c rest ih =>
    intro w err
    unfold changesLoop
    simp only [ih, Do_log, List.map_cons, List.append_assoc, List.singleton_append]

theorem readLoop_log (m : Keyset) :
    ∀ (w : World) (acc : Keyset), ∃ rest, (readLoop w acc m).1.log = w.log ++ rest := by
  induction m with
  | nil => intro w acc; exact ⟨[], by simp [readLoop]⟩
  | cons p rest ih =>
    intro w acc
    obtain ⟨k, v⟩ := p
    unfold readLoop
    have hlog := Do_log w (.get k)
    generalize w.Do (.get k) = r at hlog
    obtain ⟨w1, rep⟩ := r
    simp only at hlog
    cases rep with
    | error e => exact ⟨[.get k], hlog⟩
    | ok value =>
      obtain ⟨t, ht⟩ := ih w1 (Keyset.insert k (value.getD "") acc)
      exact ⟨.get k :: t, by simp only [ht, hlog, List.append_assoc, List.singleton_append]⟩

theorem resourceKeysetRead_log (w : World) (d : ResourceData) :
    ∃ rest, (resourceKeysetRead w d).world.log = w.log ++ rest := by
  unfold resourceKeysetRead
  unfold World.New
  split
  · exact ⟨[], by simp⟩
  · rename_i w1 hnew
    have hw1 : w1.log = w.log := by
      split at hnew
      · cases hnew
      · cases hnew; rfl
    obtain ⟨t, ht⟩ := readLoop_log d.keyset w1 []
    generalize readLoop w1 [] d.keyset = r at ht
    obtain ⟨w2, rep⟩ := r
    cases rep with
    | error e => exact ⟨t, by simpa [hw1] using ht⟩
    | ok v => exact ⟨t, by simpa [hw1] using ht⟩

theorem updateBlock_log (w : World) (d : ResourceData) (hq : w.queue = none)
    (hmulti : w.fails w.log .multi = false) :
    ∃ rest, (updateBlock w d).1.log
      = w.log ++ [.multi] ++ (Diff d.oldKeyset d.keyset).map changeCmd ++ [.exec] ++ rest := by
  have hm : w.Do .multi = ({ w with log := w.log ++ [.multi], queue := some [] }, .ok none) := by
    simp [World.Do, hmulti, hq]
  unfold updateBlock
  rw [hm]
  simp only
  have hcl := changesLoop_log (Diff d.oldKeyset d.keyset)
    { w with log := w.log ++ [.multi], queue := some [] } none
  generalize changesLoop { w with log := w.log ++ [.multi], queue := some [] } none
    (Diff d.oldKeyset d.keyset) = r at hcl
  obtain ⟨w2, err⟩ := r
  simp only at hcl
  have hex := Do_log w2 .exec
  generalize w2.Do .exec = r3 at hex
  obtain ⟨w3, ret⟩ := r3
  simp only at hex ⊢
  cases err with
  | none => exact ⟨[], by simp [hex, hcl]⟩
  | some e => exact ⟨[.discard], by simp [Do_log, hex, hcl]⟩

theorem mem_diff_cmds (old new : Keyset) (hold : old.keys.Nodup) (hnew : new.keys.Nodup)
    (c : Cmd) :
    c ∈ (Diff old new).map changeCmd ↔
      (∃ k v, c = .set k v ∧ Keyset.lookup k new = some v ∧ Keyset.lookup k old = none) ∨
      (∃ k v v', c = .set k v ∧ Keyset.lookup k new = some v ∧
        Keyset.lookup k old = some v' ∧ v' ≠ v) ∨
      (∃ k v', c = .del k ∧ Keyset.lookup k old = some v' ∧ Keyset.lookup k new = none) := by
  constructor
  · intro h
    obtain ⟨ch, hch, rfl⟩ := List.mem_map.mp h
    unfold Diff at hch
    rcases List.mem_append.mp hch with h1 | h2
    · obtain ⟨p, hp, hf⟩ := List.mem_filterMap.mp h1
      obtain ⟨k, v'⟩ := p
      have hlo := lookup_eq_some_of_mem k v' old hold hp
      simp only at hf
      cases hln : Keyset.lookup k new with
      | none =>
        rw [hln] at hf
        simp only [Option.some.injEq] at hf
        subst hf
        exact Or.inr (Or.inr ⟨k, v', rfl, hlo, hln⟩)
      | some v =>
        rw [hln] at hf
        by_cases hv : v' = v
        · simp [hv] at hf
        · simp only [hv, if_false, Option.some.injEq] at hf
          subst hf
          exact Or.inr (Or.inl ⟨k, v, v', rfl, hln, hlo, hv⟩)
    · obtain ⟨p, hp, hf⟩ := List.mem_filterMap.mp h2
      obtain ⟨k, v⟩ := p
      have hln := lookup_eq_some_of_mem k v new hnew hp
      simp only at hf
      cases hlo : Keyset.lookup k old with
      | none =>
        rw [hlo] at hf
        simp only [Option.some.injEq] at hf
        subst hf
        exact Or.inl ⟨k, v, rfl, hln, hlo⟩
      | some v' =>
        rw [hlo] at hf
        simp at hf
  · intro h
    apply List.mem_map.mpr
    unfold Diff
    rcases h with ⟨k, v, rfl, hln, hlo⟩ | ⟨k, v, v', rfl, hln, hlo, hv⟩ | ⟨k, v', rfl, hlo, hln⟩
    · refine ⟨.create k v, List.mem_append_right _ ?_, rfl⟩
      exact List.mem_filterMap.mpr ⟨(k, v), mem_of_lookup_eq_some k v new hln, by simp [hlo]⟩
    · refine ⟨.update k v' v, List.mem_append_left _ ?_, rfl⟩
      exact List.mem_filterMap.mpr ⟨(k, v'), mem_of_lookup_eq_some k v' old hlo, by simp [hln, hv]⟩
    · refine ⟨.delete k v', List.mem_append_left _ ?_, rfl⟩
      exact List.mem_filterMap.mpr ⟨(k, v'), mem_of_lookup_eq_some k v' old hlo, by simp [hln]⟩

theorem filterMap_keys_sublist (f : String × String → Option Change)
    (hf : ∀ p ch, f p = some ch → Cmd.key (changeCmd ch) = some p.1) :
    ∀ m : Keyset, List.Sublist ((m.filterMap f).map (fun ch => Cmd.key (changeCmd ch)))
      (m.map (fun p => some p.1)) := by
  intro m
  induction m with
  | nil => simp
  | cons p rest ih =>
    cases hp : f p with
    | none =>
      rw [List.filterMap_cons_none hp]
      exact List.Sublist.cons _ ih
    | some ch =>
      rw [List.filterMap_cons_some hp]
      simp only [List.map_cons, hf p ch hp]
      exact List.Sublist.cons₂ _ ih

theorem diff_cmds_keys_nodup (old new : Keyset) (hold : old.keys.Nodup) (hnew : new.keys.Nodup) :
    (((Diff old new).map changeCmd).map Cmd.key).Nodup := by
  have hsome : ∀ m : Keyset, m.keys.Nodup → (m.map (fun p => some p.1)).Nodup := by
    intro m hm
    have := List.Nodup.map (Option.some_injective String) hm
    simpa [Keyset.keys, List.map_map, Function.comp_def] using this
  have hA := filterMap_keys_sublist
    (fun p => match Keyset.lookup p.1 new with
      | none => some (Change.delete p.1 p.2)
      | some v => if p.2 = v then none else some (Change.update p.1 p.2 v))
    (by
      intro p ch h
      simp only at h
      split at h
      · cases h; rfl
      · split at h
        · cases h
        · cases h; rfl) old
  have hB := filterMap_keys_sublist
    (fun p => match Keyset.lookup p.1 old with
      | none => some (Change.create p.1 p.2)
      | some _ => none)
    (by
      intro p ch h
      simp only at h
      split at h
      · cases h; rfl
      · cases h) new
  unfold Diff
  rw [List.map_append, List.map_append, List.map_map, List.map_map]
  refine List.nodup_append.mpr ⟨hA.nodup (hsome old hold), hB.nodup (hsome new hnew), ?_⟩
  intro x hx1 hx2
  have h1 := hA.subset hx1
  obtain ⟨q, hq, rfl⟩ := List.mem_map.mp h1
  obtain ⟨ch, hch, hkey⟩ := List.mem_map.mp hx2
  obtain ⟨p, hp, hfp⟩ := List.mem_filterMap.mp hch
  cases hlo : Keyset.lookup p.1 old with
  | some v => rw [hlo] at hfp; cases hfp
  | none =>
    rw [hlo] at hfp
    cases hfp
    simp only [Function.comp, changeCmd, Cmd.key, Option.some.injEq] at hkey
    have hnot := (lookup_eq_none_iff p.1 old).mp hlo
    apply hnot
    rw [hkey]
    exact List.mem_map.mpr ⟨q, hq, rfl⟩

/-- C1: when the old and the new keyset differ, the connection is acquired and
`MULTI` succeeds, the commands `resourceKeysetUpdate` sends are `MULTI`, then
`cmds`, then `EXEC`, then whatever follows; `cmds` names no key twice and holds
exactly: `SET k new[k]` for every key of the new keyset absent from the old
one, `SET k new[k]` for every key present in both with different values, and
`DEL k` for every key of the old keyset absent from the new one; no command of
`cmds` names a key whose value is the same in both. -/
theorem update_sends_exactly_the_diff (w : World) (d : ResourceData)
    (hold : d.oldKeyset.keys.Nodup) (hnew : d.keyset.keys.Nodup)
    (hchg : d.HasChanges = true)
    (hdial : w.dialFails w.log (getRedisConnection w d) = false)
    (hmulti : w.fails w.log .multi = false) :
    ∃ cmds rest,
      (resourceKeysetUpdate w d).world.log = w.log ++ [.multi] ++ cmds ++ [.exec] ++ rest ∧
      (cmds.map Cmd.key).Nodup ∧
      (∀ c, c ∈ cmds ↔
        (∃ k v, c = .set k v ∧ Keyset.lookup k d.keyset = some v ∧
          Keyset.lookup k d.oldKeyset = none) ∨
        (∃ k v v', c = .set k v ∧ Keyset.lookup k d.keyset = some v ∧
          Keyset.lookup k d.oldKeyset = some v' ∧ v' ≠ v) ∨
        (∃ k v', c = .del k ∧ Keyset.lookup k d.oldKeyset = some v' ∧
          Keyset.lookup k d.keyset = none)) ∧
      (∀ k v c, Keyset.lookup k d.oldKeyset = some v → Keyset.lookup k d.keyset = some v →
        c ∈ cmds → c.key ≠ some k) := by
  have hmem := mem_diff_cmds d.oldKeyset d.keyset hold hnew
  refine ⟨(Diff d.oldKeyset d.keyset).map changeCmd, ?_⟩
  have hlog : ∃ rest, (resourceKeysetUpdate w d).world.log
      = w.log ++ [.multi] ++ (Diff d.oldKeyset d.keyset).map changeCmd ++ [.exec] ++ rest := by
    obtain ⟨t, ht⟩ := updateBlock_log { w with queue := none } d rfl hmulti
    unfold resourceKeysetUpdate
    simp only [World.New, hdial, Bool.false_eq_true, if_false, hchg, if_true]
    generalize updateBlock { w with queue := none } d = r at ht
    obtain ⟨w2, err⟩ := r
    simp only at ht
    cases err with
    | some e => exact ⟨t, ht⟩
    | none =>
      obtain ⟨t', ht'⟩ := resourceKeysetRead_log w2 d
      exact ⟨t ++ t', by simp only [ht', ht, List.append_assoc]⟩
  obtain ⟨rest, hrest⟩ := hlog
  refine ⟨rest, hrest, diff_cmds_keys_nodup _ _ hold hnew, hmem, ?_⟩
  intro k v c hlo hln hc hkey
  rcases (hmem c).mp hc with ⟨k', v', rfl, hn, ho⟩ | ⟨k', v', v'', rfl, hn, ho, hv⟩ |
    ⟨k', v', rfl, ho, hn⟩
  · simp only [Cmd.key, Option.some.injEq] at hkey
    subst hkey
    rw [hlo] at ho
    cases ho
  · simp only [Cmd.key, Option.some.injEq] at hkey
    subst hkey
    rw [hlo] at ho
    rw [hln] at hn
    cases ho
    cases hn
    exact hv rfl
  · simp only [Cmd.key, Option.some.injEq] at hkey
    subst hkey
    rw [hln] at hn
    cases hn

/-- Witness of C1: the update from `{x:1, y:2}` to `{x:1, y:3, z:4}` on a
store that never fails sends `MULTI`, `SET y 3`, `SET z 4`, `EXEC` and then the
three `GET` of the final read. -/
theorem update_sends_exactly_the_diff_witness :
    (resourceKeysetUpdate quietWorld changeXYZ).world.log =
      [.multi, .set "y" "3", .set "z" "4", .exec, .get "x", .get "y", .get "z"] ∧
    ∃ cmds rest,
      (resourceKeysetUpdate quietWorld changeXYZ).world.log
        = quietWorld.log ++ [.multi] ++ cmds ++ [.exec] ++ rest ∧
      (cmds.map Cmd.key).Nodup ∧
      (∀ c, c ∈ cmds ↔
        (∃ k v, c = .set k v ∧ Keyset.lookup k changeXYZ.keyset = some v ∧
          Keyset.lookup k changeXYZ.oldKeyset = none) ∨
        (∃ k v v', c = .set k v ∧ Keyset.lookup k changeXYZ.keyset = some v ∧
          Keyset.lookup k changeXYZ.oldKeyset = some v' ∧ v' ≠ v) ∨
        (∃ k v', c = .del k ∧ Keyset.lookup k changeXYZ.oldKeyset = some v' ∧
          Keyset.lookup k changeXYZ.keyset = none)) ∧
      (∀ k v c, Keyset.lookup k changeXYZ.oldKeyset = some v →
        Keyset.lookup k changeXYZ.keyset = some v → c ∈ cmds → c.key ≠ some k) :=
  ⟨by decide,
    update_sends_exactly_the_diff quietWorld changeXYZ (by decide) (by decide) (by decide)
      (by decide) (by decide)⟩

/-! ## Loops on a store that answers every command -/

theorem createLoop_ok (m : Keyset) :
    ∀ (w : World), w.queue = none → (∀ l k v, w.fails l (.set k v) = false) →
      createLoop w m =
        ({ w with
            log := w.log ++ m.map (fun p => Cmd.set p.1 p.2),
            data := m.foldl (fun dat p => applyCmd dat (.set p.1 p.2)) w.data }, none) := by
  induction m with
  | nil => intro w _ _; simp [createLoop]
  | cons p rest ih =>
    intro w hq hf
    obtain ⟨k, v⟩ := p
    unfold createLoop
    rw [Do_set w k v hq (hf _ _ _)]
    simp only
    rw [ih { w with log := w.log ++ [.set k v], data := applyCmd w.data (.set k v) } hq hf]
    simp

theorem deleteLoop_ok (m : Keyset) :
    ∀ (w : World), w.queue = none → (∀ l k, w.fails l (.del k) = false) →
      deleteLoop w m =
        ({ w with
            log := w.log ++ m.map (fun p => Cmd.del p.1),
            data := m.foldl (fun dat p => applyCmd dat (.del p.1)) w.data }, none) := by
  induction m with
  | nil => intro w _ _; simp [deleteLoop]
  | cons p rest ih =>
    intro w hq hf
    obtain ⟨k, v⟩ := p
    unfold deleteLoop
    rw [Do_del w k hq (hf _ _)]
    simp only
    rw [ih { w with log := w.log ++ [.del k], data := applyCmd w.data (.del k) } hq hf]
    simp

theorem readLoop_ok (m : Keyset) :
    ∀ (w : World) (acc : Keyset), w.queue = none → (∀ l k, w.fails l (.get k) = false) →
      readLoop w acc m =
        ({ w with log := w.log ++ m.map (fun p => Cmd.get p.1) },
          .ok (m.foldl (fun acc p => Keyset.insert p.1 ((w.data p.1).getD "") acc) acc)) := by
  induction m with
  | nil => intro w acc _ _; simp [readLoop]
  | cons p rest ih =>
    intro w acc hq hf
    obtain ⟨k, v⟩ := p
    unfold readLoop
    rw [Do_get w k hq (hf _ _)]
    simp only
    rw [ih { w with log := w.log ++ [.get k] } _ hq hf]
    simp

theorem resourceKeysetRead_ok (w : World) (d : ResourceData)
    (hdial : w.dialFails w.log (getRedisConnection w d) = false)
    (hget : ∀ l k, w.fails l (.get k) = false) :
    resourceKeysetRead w d =
      ⟨{ w with queue := none, log := w.log ++ d.keyset.map (fun p => Cmd.get p.1) },
        { d with keyset :=
            d.keyset.foldl (fun acc p => Keyset.insert p.1 ((w.data p.1).getD "") acc) [] },
        []⟩ := by
  unfold resourceKeysetRead
  simp only [World.New, hdial, Bool.false_eq_true, if_false]
  rw [readLoop_ok d.keyset { w with queue := none } [] rfl hget]

/-! ## Store content after the loops -/

theorem foldl_set_of_not_mem (m : Keyset) :
    ∀ (dat : String → Option String) (k : String), k ∉ m.keys →
      (m.foldl (fun dat p => applyCmd dat (.set p.1 p.2)) dat) k = dat k := by
  induction m with
  | nil => intro dat k _; rfl
  | cons p rest ih =>
    intro dat k hk
    simp only [Keyset.keys, List.map_cons, List.mem_cons, not_or] at hk
    simp only [List.foldl_cons]
    rw [ih _ k hk.2]
    simp [applyCmd, hk.1]

theorem foldl_set_of_mem (m : Keyset) :
    ∀ (dat : String → Option String), m.keys.Nodup → ∀ k v, (k, v) ∈ m →
      (m.foldl (fun dat p => applyCmd dat (.set p.1 p.2)) dat) k = some v := by
  induction m with
  | nil => intro dat _ k v h; simp at h
  | cons p rest ih =>
    intro dat hnd k v h
    simp only [Keyset.keys, List.map_cons, List.nodup_cons] at hnd
    simp only [List.foldl_cons]
    rcases List.mem_cons.mp h with heq | hmem
    · subst heq
      rw [foldl_set_of_not_mem rest _ k hnd.1]
      simp [applyCmd]
    · exact ih _ hnd.2 k v hmem

theorem foldl_del_of_not_mem (m : Keyset) :
    ∀ (dat : String → Option String) (k : String), k ∉ m.keys →
      (m.foldl (fun dat p => applyCmd dat (.del p.1)) dat) k = dat k := by
  induction m with
  | nil => intro dat k _; rfl
  | cons p rest ih =>
    intro dat k hk
    simp only [Keyset.keys, List.map_cons, List.mem_cons, not_or] at hk
    simp only [List.foldl_cons]
    rw [ih _ k hk.2]
    simp [applyCmd, hk.1]

theorem foldl_del_of_mem (m : Keyset) :
    ∀ (dat : String → Option String) (k : String), k ∈ m.keys →
      (m.foldl (fun dat p => applyCmd dat (.del p.1)) dat) k = none := by
  induction m with
  | nil => intro dat k h; simp [Keyset.keys] at h
  | cons p rest ih =>
    intro dat k hk
    simp only [List.foldl_cons]
    by_cases hrest : k ∈ Keyset.keys rest
    · exact ih _ k hrest
    · rw [foldl_del_of_not_mem rest _ k hrest]
      simp only [Keyset.keys, List.map_cons, List.mem_cons] at hk
      rcases hk with hk | hk
      · simp [applyCmd, hk]
      · exact absurd hk hrest

/-! ## The observed keyset -/

theorem insert_of_not_mem (k v : String) (m : Keyset) (h : k ∉ m.keys) :
    Keyset.insert k v m = m ++ [(k, v)] := by
  induction m with
  | nil => rfl
  | cons p rest ih =>
    obtain ⟨k', v'⟩ := p
    simp only [Keyset.keys, List.map_cons, List.mem_cons, not_or] at h
    unfold Keyset.insert
    have hne : ¬ k' = k := fun e => h.1 e.symm
    simp only [hne, if_false, List.cons_append]
    rw [ih h.2]

theorem foldl_insert_eq (f : String → String) (m : Keyset) :
    ∀ (acc : Keyset), m.keys.Nodup → (∀ k ∈ m.keys, k ∉ acc.keys) →
      m.foldl (fun acc p => Keyset.insert p.1 (f p.1) acc) acc
        = acc ++ m.map (fun p => (p.1, f p.1)) := by
  induction m with
  | nil => intro acc _ _; simp
  | cons p rest ih =>
    intro acc hnd hdisj
    simp only [Keyset.keys, List.map_cons, List.nodup_cons] at hnd
    simp only [List.foldl_cons, List.map_cons]
    rw [insert_of_not_mem p.1 (f p.1) acc (hdisj p.1 (by simp [Keyset.keys]))]
    rw [ih _ hnd.2]
    · simp
    · intro k hk
      have h1 := hdisj k (by simp only [Keyset.keys, List.map_cons, List.mem_cons]; exact Or.inr hk)
      simp only [Keyset.keys, List.map_append, List.map_cons, List.map_nil, List.mem_append,
        List.mem_singleton, not_or]
      refine ⟨h1, ?_⟩
      intro e
      apply hnd.1
      rw [← e]
      exact hk

theorem lookup_insert (k k' v : String) (m : Keyset) :
    Keyset.lookup k (Keyset.insert k' v m) = if k' = k then some v else Keyset.lookup k m := by
  induction m with
  | nil => simp [Keyset.insert, Keyset.lookup]
  | cons p rest ih =>
    obtain ⟨k'', v''⟩ := p
    unfold Keyset.insert
    by_cases h1 : k'' = k'
    · subst h1
      by_cases h2 : k'' = k
      · simp [Keyset.lookup, h2]
      · simp [Keyset.lookup, h2]
    · simp only [h1, if_false]
      by_cases h2 : k'' = k
      · have h3 : ¬ k' = k := fun e => h1 (h2.trans e.symm)
        simp [Keyset.lookup, h2, h3]
      · simp only [Keyset.lookup, h2, if_false]
        exact ih

theorem lookup_foldl_insert_of_not_mem (f : String → String) (k : String) (m : Keyset) :
    ∀ (acc : Keyset), k ∉ m.keys →
      Keyset.lookup k (m.foldl (fun acc p => Keyset.insert p.1 (f p.1) acc) acc)
        = Keyset.lookup k acc := by
  induction m with
  | nil => intro acc _; rfl
  | cons p rest ih =>
    intro acc hk
    simp only [Keyset.keys, List.map_cons, List.mem_cons, not_or] at hk
    simp only [List.foldl_cons]
    rw [ih _ hk.2, lookup_insert]
    have hne : ¬ p.1 = k := fun e => hk.1 e.symm
    simp [hne]

theorem lookup_foldl_insert_of_mem (f : String → String) (k : String) (m : Keyset) :
    ∀ (acc : Keyset), k ∈ m.keys →
      Keyset.lookup k (m.foldl (fun acc p => Keyset.insert p.1 (f p.1) acc) acc)
        = some (f k) := by
  induction m with
  | nil => intro acc h; simp [Keyset.keys] at h
  | cons p rest ih =>
    intro acc hk
    simp only [List.foldl_cons]
    by_cases hrest : k ∈ Keyset.keys rest
    · exact ih _ hrest
    · rw [lookup_foldl_insert_of_not_mem f k rest _ hrest, lookup_insert]
      simp only [Keyset.keys, List.map_cons, List.mem_cons] at hk
      rcases hk with hk | hk
      · simp [hk]
      · exact absurd hk hrest

theorem observed_eq_of_stored (dat : String → Option String) (m : Keyset)
    (hnd : m.keys.Nodup) (h : ∀ k v, (k, v) ∈ m → dat k = some v) :
    m.foldl (fun acc p => Keyset.insert p.1 ((dat p.1).getD "") acc) [] = m := by
  have h1 := foldl_insert_eq (fun k => (dat k).getD "") m [] hnd (by simp [Keyset.keys])
  simp only [List.nil_append] at h1
  rw [h1]
  have h2 : ∀ p ∈ m, (fun p : String × String => (p.1, (dat p.1).getD "")) p = p := by
    intro p hp
    simp [h p.1 p.2 hp]
  rw [List.map_congr_left h2, List.map_id']

/-! ## Create then Read, Delete then Read -/

/-- C4: for a keyset with unique keys, when connections are acquired and every
store command succeeds, `resourceKeysetCreate` returns no diagnostic, leaves the
store holding the value of the keyset at each of its keys and records an
observed keyset equal to the desired one (same keys, same values); a further
`resourceKeysetRead` succeeds and observes the same keyset again. -/
theorem create_then_read_round_trip (w : World) (d : ResourceData)
    (hnodup : d.keyset.keys.Nodup)
    (hdial : ∀ l, w.dialFails l (getRedisConnection w d) = false)
    (hcmd : ∀ l c, w.fails l c = false) :
    (resourceKeysetCreate w d).diags = [] ∧
    (∀ k v, (k, v) ∈ d.keyset → (resourceKeysetCreate w d).world.data k = some v) ∧
    (∀ k, Keyset.lookup k (resourceKeysetCreate w d).d.keyset = Keyset.lookup k d.keyset) ∧
    (resourceKeysetCreate w d).d.keyset = d.keyset ∧
    (resourceKeysetRead (resourceKeysetCreate w d).world (resourceKeysetCreate w d).d).diags
      = [] ∧
    (resourceKeysetRead (resourceKeysetCreate w d).world (resourceKeysetCreate w d).d).d.keyset
      = d.keyset := by
  have hstored : ∀ k v, (k, v) ∈ d.keyset →
      (d.keyset.foldl (fun dat p => applyCmd dat (.set p.1 p.2)) w.data) k = some v :=
    foldl_set_of_mem d.keyset w.data hnodup
  have hobs := observed_eq_of_stored _ d.keyset hnodup hstored
  have hcreate : resourceKeysetCreate w d =
      ⟨{ w with
          queue := none,
          log := (w.log ++ d.keyset.map (fun p => Cmd.set p.1 p.2))
            ++ d.keyset.map (fun p => Cmd.get p.1),
          data := d.keyset.foldl (fun dat p => applyCmd dat (.set p.1 p.2)) w.data },
        { d with id := toString (Hash d.keyset) }, []⟩ := by
    unfold resourceKeysetCreate
    simp only [World.New, hdial, Bool.false_eq_true, if_false]
    rw [createLoop_ok d.keyset { w with queue := none } rfl (fun l k v => hcmd l _)]
    simp only
    rw [resourceKeysetRead_ok]
    · simp only [hobs]
    · exact hdial _
    · exact fun l k => hcmd l _
  rw [hcreate]
  refine ⟨rfl, hstored, fun _ => rfl, rfl, ?_, ?_⟩
  · rw [resourceKeysetRead_ok]
    exacts [hdial _, fun l k => hcmd l _]
  · rw [resourceKeysetRead_ok]
    rotate_left
    · exact hdial _
    · exact fun l k => hcmd l _
    · exact hobs

/-- Witness of C4: `Create({x:1})` on an empty store that never fails. -/
theorem create_then_read_round_trip_witness :
    (resourceKeysetCreate quietWorld newX).diags = [] ∧
    (∀ k v, (k, v) ∈ newX.keyset → (resourceKeysetCreate quietWorld newX).world.data k = some v) ∧
    (∀ k, Keyset.lookup k (resourceKeysetCreate quietWorld newX).d.keyset
      = Keyset.lookup k newX.keyset) ∧
    (resourceKeysetCreate quietWorld newX).d.keyset = newX.keyset ∧
    (resourceKeysetRead (resourceKeysetCreate quietWorld newX).world
      (resourceKeysetCreate quietWorld newX).d).diags = [] ∧
    (resourceKeysetRead (resourceKeysetCreate quietWorld newX).world
      (resourceKeysetCreate quietWorld newX).d).d.keyset = newX.keyset :=
  create_then_read_round_trip quietWorld newX (by decide) (fun _ => rfl) (fun _ _ => rfl)

/-- C5: when connections are acquired, every `DEL` succeeds and every `GET` is
answered, `resourceKeysetDelete` returns no diagnostic, clears the id and leaves
no key of the last known keyset in the store; a following `resourceKeysetRead`
over that keyset returns no diagnostic and observes the empty string at every
one of its keys. -/
theorem delete_then_read_reports_empty (w : World) (d : ResourceData)
    (hdial : ∀ l, w.dialFails l (getRedisConnection w d) = false)
    (hdel : ∀ l k, w.fails l (.del k) = false)
    (hget : ∀ l k, w.fails l (.get k) = false) :
    (resourceKeysetDelete w d).diags = [] ∧
    (resourceKeysetDelete w d).d.id = "" ∧
    (∀ k ∈ d.oldKeyset.keys, (resourceKeysetDelete w d).world.data k = none) ∧
    (resourceKeysetRead (resourceKeysetDelete w d).world
      { (resourceKeysetDelete w d).d with keyset := d.oldKeyset }).diags = [] ∧
    (∀ k ∈ d.oldKeyset.keys,
      Keyset.lookup k (resourceKeysetRead (resourceKeysetDelete w d).world
        { (resourceKeysetDelete w d).d with keyset := d.oldKeyset }).d.keyset = some "") := by
  have hgone : ∀ k ∈ d.oldKeyset.keys,
      (d.oldKeyset.foldl (fun dat p => applyCmd dat (.del p.1)) w.data) k = none :=
    foldl_del_of_mem d.oldKeyset w.data
  have hdelete : resourceKeysetDelete w d =
      ⟨{ w with
          queue := none,
          log := w.log ++ d.oldKeyset.map (fun p => Cmd.del p.1),
          data := d.oldKeyset.foldl (fun dat p => applyCmd dat (.del p.1)) w.data },
        { d with id := "" }, []⟩ := by
    unfold resourceKeysetDelete
    simp only [World.New, hdial, Bool.false_eq_true, if_false]
    rw [deleteLoop_ok d.oldKeyset { w with queue := none } rfl hdel]
  rw [hdelete]
  refine ⟨rfl, rfl, hgone, ?_, ?_⟩
  · rw [resourceKeysetRead_ok]
    exacts [hdial _, hget]
  · intro k hk
    rw [resourceKeysetRead_ok]
    rotate_left
    · exact hdial _
    · exact hget
    · have h := lookup_foldl_insert_of_mem
        (fun k => ((d.oldKeyset.foldl (fun dat p => applyCmd dat (.del p.1)) w.data) k).getD "")
        k d.oldKeyset [] hk
      simp only [hgone k hk, Option.getD_none] at h
      exact h

/-- Witness of C5: deleting the resource whose last known keyset is
`{x:1, y:2}` from a store that holds both keys. -/
theorem delete_then_read_reports_empty_witness :
    holdsXY.data "x" = some "1" ∧
    (resourceKeysetDelete holdsXY dropXY).diags = [] ∧
    (resourceKeysetDelete holdsXY dropXY).d.id = "" ∧
    (∀ k ∈ dropXY.oldKeyset.keys, (resourceKeysetDelete holdsXY dropXY).world.data k = none) ∧
    (resourceKeysetRead (resourceKeysetDelete holdsXY dropXY).world
      { (resourceKeysetDelete holdsXY dropXY).d with keyset := dropXY.oldKeyset }).diags = [] ∧
    (∀ k ∈ dropXY.oldKeyset.keys,
      Keyset.lookup k (resourceKeysetRead (resourceKeysetDelete holdsXY dropXY).world
        { (resourceKeysetDelete holdsXY dropXY).d with keyset := dropXY.oldKeyset }).d.keyset
        = some "") :=
  ⟨by decide,
    delete_then_read_reports_empty holdsXY dropXY (fun _ => rfl) (fun _ _ => rfl)
      (fun _ _ => rfl)⟩

end RedisKeystore
